import Mathlib

/-!
# Verification of `nxc/modules/enum_pass_manager.py`

A shallow embedding of the NetExec `enum_pass_manager` module and proofs
about it.  The module detects installed password managers on a remote SMB
host by two independent detectors:

* `_recursive_match` / `_detect_password_managers`: wildcard path
  resolution by recursive directory listing over the `C$` share;
* `_detect_running_processes`: one listing of the `IPC$` namespace,
  matched case-insensitively against configured pipe-name substrings.

The remote session is modelled by `Conn`, whose `listPath` field stands
for impacket's `connection.conn.listPath(share, path)`: `.ok entries` when
the call returns, `.error msg` when it raises (the message standing for
`str(e)`).  Log output (`context.log.info/highlight/fail`) is modelled as
the list of `LogEvent`s a run produces, in order.

Python string primitives used by the module (`str.replace`, `str.split`,
`str.lower`, the `in` substring test, `fnmatch.fnmatch`, `os.path.join`)
are modelled by executable functions on `List Char` below.  Fuel-indexed
definitions use structural recursion on a fuel initialised to the string
length, which is enough for every step to consume at least one character;
this keeps every definition kernel-computable.
-/

/-! ## Python string primitives -/

/-- `listStartsWith s pre`: `s` starts with `pre` (used by the models of
`str.replace`, `str.split` and the substring test). -/
def listStartsWith : List Char → List Char → Bool
  | _, [] => true
  | [], _ :: _ => false
  | a :: as, b :: bs => a == b && listStartsWith as bs

/-- Fuel-indexed body of `pyReplace`; one fuel unit is spent per consumed
character, so `s.length` fuel always suffices. -/
def pyReplaceFuel (pat rep : List Char) : Nat → List Char → List Char
  | 0, s => s
  | _ + 1, [] => []
  | fuel + 1, c :: cs =>
    if !pat.isEmpty && listStartsWith (c :: cs) pat then
      rep ++ pyReplaceFuel pat rep fuel ((c :: cs).drop pat.length)
    else
      c :: pyReplaceFuel pat rep fuel cs

/-- Model of Python `s.replace(pat, rep)` for a non-empty `pat`: replace
every non-overlapping occurrence, left to right.  (The module only calls
it as `current_path.replace("C:", "")`.) -/
def pyReplace (s pat rep : String) : String :=
  ⟨pyReplaceFuel pat.data rep.data s.data.length s.data⟩

/-- Fuel-indexed body of `pySplit`. -/
def pySplitFuel (sep : List Char) : Nat → List Char → List (List Char)
  | 0, s => [s]
  | _ + 1, [] => [[]]
  | fuel + 1, c :: cs =>
    if !sep.isEmpty && listStartsWith (c :: cs) sep then
      [] :: pySplitFuel sep fuel ((c :: cs).drop sep.length)
    else
      match pySplitFuel sep fuel cs with
      | [] => [[c]]
      | g :: gs => (c :: g) :: gs

/-- Model of Python `s.split(sep)` for a non-empty separator (the module
splits on the two-character separator `\\`). -/
def pySplit (s sep : String) : List String :=
  (pySplitFuel sep.data s.data.length s.data).map fun l => ⟨l⟩

/-- ASCII lower-casing of one character, as Python `str.lower` acts on the
ASCII identifiers and pipe names the module compares. -/
def pyLowerChar (c : Char) : Char :=
  if 65 ≤ c.toNat ∧ c.toNat ≤ 90 then Char.ofNat (c.toNat + 32) else c

/-- Model of Python `s.lower()` (ASCII range). -/
def pyLower (s : String) : String := ⟨s.data.map pyLowerChar⟩

/-- `pyInL needle hay`: model of the Python substring test
`needle in hay` on character lists. -/
def pyInL (needle : List Char) : List Char → Bool
  | [] => listStartsWith [] needle
  | c :: cs => listStartsWith (c :: cs) needle || pyInL needle cs

/-- Model of Python `needle in hay` for strings. -/
def pyInStr (needle hay : String) : Bool := pyInL needle.data hay.data

/-- Fuel-indexed shell-glob matcher: `*` matches any run of characters
(including the empty run), `?` matches exactly one character, every other
character matches itself.  One fuel unit is spent per step and every step
shortens the pattern or the string, so `pat.length + s.length + 1` fuel
always suffices. -/
def globMatchFuel : Nat → List Char → List Char → Bool
  | 0, _, _ => false
  | _ + 1, [], s => s.isEmpty
  | fuel + 1, p :: ps, s =>
    if p = '*' then
      globMatchFuel fuel ps s ||
        (match s with
         | [] => false
         | _ :: cs => globMatchFuel fuel (p :: ps) cs)
    else
      match s with
      | [] => false
      | c :: cs => (p = '?' || p = c) && globMatchFuel fuel ps cs

/-- Model of Python `fnmatch.fnmatch(name, pat)` for patterns built from
literals, `*` and `?` (the module's catalog uses only literals and `*`;
character classes do not occur).  `os.path.normcase` is the identity on
the POSIX hosts NetExec runs on, so matching is case-sensitive. -/
def fnmatch (name pat : String) : Bool :=
  globMatchFuel (pat.data.length + name.data.length + 1) pat.data name.data

/-- Model of Python `os.path.join(a, b)` (POSIX rules: an absolute second
component replaces the first; otherwise one `/` separates them unless the
first already ends in `/` or is empty). -/
def osJoin (a b : String) : String :=
  if listStartsWith b.data ['/'] then b
  else if a = "" || (match a.data.getLast? with | some c => c = '/' | none => false) then
    ⟨a.data ++ b.data⟩
  else ⟨a.data ++ '/' :: b.data⟩

/-! ## Data model -/

/-- One entry of an SMB directory listing, with the 8.3 short name
(`get_shortname`, used by the path resolver) and the long name
(`get_longname`, used by the pipe scanner). -/
structure Entry where
  shortname : String
  longname : String
deriving DecidableEq

/-- One catalog signature: ordered path patterns and pipe-name identifier
substrings (the `"paths"` and `"pipes"` values of the module's
`password_managers` dict). -/
structure Product where
  paths : List String
  pipes : List String
deriving DecidableEq

/-- The authenticated session.  `listPath share path` models
`connection.conn.listPath(share, path)`; the other fields model the
`connection` attributes `on_login` reads. -/
structure Conn where
  host : String
  kerberos : Bool := false
  hostname : String := ""
  domain : String := ""
  listPath : String → String → Except String (List Entry)

/-- One line of log output (`context.log.<level>(msg)`). -/
inductive LogEvent where
  | info (msg : String)
  | highlight (msg : String)
  | fail (msg : String)
  | debug (msg : String)
deriving DecidableEq

/-- Number of occurrences of one log event in a run's output. -/
def countEvent (e : LogEvent) (l : List LogEvent) : Nat :=
  l.countP fun x => decide (x = e)

/-- The module's static catalog (`password_managers` in `on_login`), in
insertion order.  The Python sources are raw strings, so each `\\` is two
backslash characters. -/
def password_managers : List (String × Product) :=
  [ ("LastPass",
     { paths := ["C:\\\\Program Files (x86)\\\\LastPass", "C:\\\\ProgramData\\\\LastPass"]
       pipes := ["LASTPASS_"] }),
    ("Dashlane",
     { paths := ["C:\\\\Program Files (x86)\\\\Dashlane", "C:\\\\ProgramData\\\\Dashlane"]
       pipes := [] }),
    ("1Password",
     { paths := ["C:\\\\Users\\\\*\\\\AppData\\\\*\\\\1Password", "C:\\\\Program Files\\\\1Password",
                 "C:\\\\Program Files (x86)\\\\1Password"]
       pipes := [] }),
    ("Bitwarden",
     { paths := ["C:\\\\Program Files\\\\Bitwarden", "C:\\\\Users\\\\*\\\\AppData\\\\Local\\\\Bitwarden"]
       pipes := [] }),
    ("KeePass",
     { paths := ["C:\\\\Program Files\\\\KeePass*", "C:\\\\Program Files (x86)\\\\KeePass*"]
       pipes := [] }),
    ("EnPass",
     { paths := ["C:\\\\Program Files\\\\Enpass", "C:\\\\Program Files (x86)\\\\Enpass"]
       pipes := ["-enpass-"] }) ]

/-! ## The module's functions -/

/-- `_get_target`. -/
def get_target (conn : Conn) : String :=
  if !conn.kerberos then conn.host else conn.hostname ++ "." ++ conn.domain

/-- The argument `_recursive_match` passes to `listPath` for the current
path: `current_path.replace("C:", "") + "/*"`. -/
def listArg (p : String) : String := pyReplace p "C:" "" ++ "/*"

/-- `_recursive_match` (lines 101-131).  The Python base case returns the
truthy list `[current_path]` and every other branch returns a `bool`;
only truthiness is ever consumed (`if not self._recursive_match(...)` and
`if self._recursive_match(...)`), so the model returns `Bool` with the
base case `true`.  A raised exception from `listPath` (the bare
`except: return False`) is the `.error` branch.  The argument order puts
the remaining segments first so that the recursion is structural. -/
def recursive_match (conn : Conn) : List String → String → Bool
  | [], _ => true
  | next :: rest, currentPath =>
    match conn.listPath "C$" (listArg currentPath) with
    | .error _ => false
    | .ok contents =>
      ((contents.filter fun it => fnmatch it.shortname next).map
        fun it => osJoin currentPath it.shortname).any fun d =>
          recursive_match conn rest d

/-- The children of `currentPath` that match the segment `next` (lines
118-122), joined to their parent; empty when the listing fails. -/
def matchedDirs (conn : Conn) (currentPath next : String) : List String :=
  match conn.listPath "C$" (listArg currentPath) with
  | .error _ => []
  | .ok contents =>
    (contents.filter fun it => fnmatch it.shortname next).map
      fun it => osJoin currentPath it.shortname

/-- `_recursive_match` with an explicit recursion-depth budget: one unit
of fuel is consumed per path segment, used to state that the recursion
depth equals the number of remaining segments. -/
def recursive_match_fuel (conn : Conn) : Nat → List String → String → Bool
  | _, [], _ => true
  | 0, _ :: _, _ => false
  | fuel + 1, next :: rest, currentPath =>
    match conn.listPath "C$" (listArg currentPath) with
    | .error _ => false
    | .ok contents =>
      ((contents.filter fun it => fnmatch it.shortname next).map
        fun it => osJoin currentPath it.shortname).any fun d =>
          recursive_match_fuel conn fuel rest d

/-- The prefix of the matched directories the Python `for matched_dir`
loop actually visits: every directory up to and including the first one
whose recursive call succeeds (the loop returns `True` there). -/
def visitedDirs (conn : Conn) (rest : List String) : List String → List String
  | [] => []
  | d :: ds =>
    if recursive_match conn rest d then [d] else d :: visitedDirs conn rest ds

/-- The `listPath` arguments `_recursive_match` issues, in order: its own
listing of `currentPath`, then the listings of the recursive calls on the
visited matched directories. -/
def recTrace (conn : Conn) : List String → String → List String
  | [], _ => []
  | next :: rest, currentPath =>
    match conn.listPath "C$" (listArg currentPath) with
    | .error _ => [listArg currentPath]
    | .ok contents =>
      listArg currentPath ::
        (visitedDirs conn rest
          ((contents.filter fun it => fnmatch it.shortname next).map
            fun it => osJoin currentPath it.shortname)).flatMap
          fun d => recTrace conn rest d

/-- The resolution frontier: all concrete paths reached from `p` by
matching the given segments in order, each step taken from
`matchedDirs`. -/
def frontierPaths (conn : Conn) : List String → String → List String
  | [], p => [p]
  | next :: rest, p =>
    (matchedDirs conn p next).flatMap fun q => frontierPaths conn rest q

/-- The resolution of one catalog path pattern as `_detect_password_managers`
performs it (lines 90-95): split on the two-character separator `\\`, take
the head as the root and resolve the remaining segments. -/
def resolves (conn : Conn) (path : String) : Bool :=
  match pySplit path "\\\\" with
  | [] => false
  | base :: remaining => recursive_match conn remaining base

/-- The inner loop of `_detect_password_managers` for one product: try the
patterns in order, stop (`break`) at the first that resolves, emitting one
highlight.  The `try/except` around the body is unreachable in the model
(every modelled operation is total), so no `debug` event is produced. -/
def detect_product_paths (conn : Conn) (name : String) : List String → List LogEvent
  | [] => []
  | path :: rest =>
    match pySplit path "\\\\" with
    | [] => detect_product_paths conn name rest
    | base :: remaining =>
      if recursive_match conn remaining base then
        [LogEvent.highlight ("Password manager installed: " ++ name)]
      else
        detect_product_paths conn name rest

/-- `_detect_password_managers` (lines 80-99). -/
def detect_password_managers (conn : Conn) (pms : List (String × Product)) : List LogEvent :=
  LogEvent.info ("Checking for known password manager file paths on " ++ conn.host ++ "...") ::
    pms.flatMap fun np => detect_product_paths conn np.1 np.2.paths

/-- `_detect_running_processes` (lines 133-144).  For each listed IPC
entry and each product, the inner `for pipe ... break` emits one highlight
iff some pipe identifier of that product is a case-insensitive substring
of the entry's long name; the entry loop and the product loop are not
broken out of.  A failure of the one `listPath("IPC$", "\\*")` call is
caught and logged through `context.log.fail(str(e))`. -/
def detect_running_processes (conn : Conn) (pms : List (String × Product)) : List LogEvent :=
  LogEvent.info ("Detecting running processes on " ++ conn.host ++ " by enumerating pipes...") ::
    match conn.listPath "IPC$" "\\*" with
    | .error e => [LogEvent.fail e]
    | .ok entries =>
      entries.flatMap fun f =>
        pms.filterMap fun np =>
          if np.2.pipes.any fun pipe => pyInStr (pyLower pipe) (pyLower f.longname) then
            some (LogEvent.highlight ("Password manager RUNNING: " ++ np.1))
          else none

/-- `on_login` (lines 28-70): log the target, then run the pipe scanner
and the path detector over the static catalog. -/
def on_login (conn : Conn) : List LogEvent :=
  LogEvent.info ("Analyzing target: " ++ get_target conn) ::
    (detect_running_processes conn password_managers ++
      detect_password_managers conn password_managers)

/-- `dump_results` (lines 146-160), with a result's `data` dict modelled
by a `Product` (its `"paths"` and `"pipes"` values). -/
def dump_results (results : List (String × Product)) : List LogEvent :=
  if results.isEmpty then
    [LogEvent.highlight "No password managers detected."]
  else
    results.map fun md =>
      LogEvent.highlight (("Password manager detected: " ++ md.1)
        ++ (if md.2.paths.length > 0 then " (Paths detected)" else "")
        ++ (if md.2.pipes.length > 0 then " - RUNNING!" else ""))

/-! ## Reachability: the specification side of path resolution -/

/-- `Chain conn p segs q`: starting from the concrete directory `p`, the
segments `segs` can be matched in order through existing listed children,
ending at the concrete path `q`.  `Chain conn p segs q` for some `q` is
exactly "the pattern matches at least one existing concrete path reachable
from `p`". -/
inductive Chain (conn : Conn) : String → List String → String → Prop
  | nil (p : String) : Chain conn p [] p
  | cons {p next q r : String} {rest : List String} :
      q ∈ matchedDirs conn p next → Chain conn q rest r →
      Chain conn p (next :: rest) r

/-! ## Lemmas about the path resolver -/

theorem recursive_match_nil (conn : Conn) (p : String) :
    recursive_match conn [] p = true := rfl

/-- One unfolding step: a call on `next :: rest` succeeds iff the
recursion succeeds on some matched child (when the listing fails there is
no matched child and both sides are `false`). -/
theorem recursive_match_cons (conn : Conn) (next : String) (rest : List String) (p : String) :
    recursive_match conn (next :: rest) p =
      (matchedDirs conn p next).any fun d => recursive_match conn rest d := by
  cases h : conn.listPath "C$" (listArg p) <;>
    simp [recursive_match, matchedDirs, h]

/-- `recursive_match` is truthy iff some concrete path is reachable from
the current path by matching all remaining segments. -/
theorem recursive_match_iff_chain (conn : Conn) (segs : List String) (p : String) :
    recursive_match conn segs p = true ↔ ∃ r, Chain conn p segs r := by
  induction segs generalizing p with
  | nil =>
    simp only [recursive_match_nil, true_iff]
    exact ⟨p, Chain.nil p⟩
  | cons next rest ih =>
    rw [recursive_match_cons, List.any_eq_true]
    constructor
    · rintro ⟨d, hd, hrec⟩
      obtain ⟨r, hc⟩ := (ih d).mp hrec
      exact ⟨r, Chain.cons hd hc⟩
    · rintro ⟨r, hc⟩
      cases hc with
      | cons hq hrest => exact ⟨_, hq, (ih _).mpr ⟨r, hrest⟩⟩

/-- A chain over concatenated segment lists splits at the junction. -/
theorem chain_append_iff (conn : Conn) (s₁ s₂ : List String) (p r : String) :
    Chain conn p (s₁ ++ s₂) r ↔ ∃ m, Chain conn p s₁ m ∧ Chain conn m s₂ r := by
  induction s₁ generalizing p with
  | nil =>
    simp only [List.nil_append]
    constructor
    · exact fun h => ⟨p, Chain.nil p, h⟩
    · rintro ⟨m, hm, h⟩
      cases hm
      exact h
  | cons next rest ih =>
    constructor
    · intro h
      cases h with
      | cons hq hrest =>
        obtain ⟨m, h₁, h₂⟩ := (ih _).mp hrest
        exact ⟨m, Chain.cons hq h₁, h₂⟩
    · rintro ⟨m, hm, h⟩
      cases hm with
      | cons hq hrest =>
        exact Chain.cons hq ((ih _).mpr ⟨m, hrest, h⟩)

/-- The computable frontier lists exactly the chain endpoints. -/
theorem mem_frontierPaths_iff_chain (conn : Conn) (segs : List String) (p q : String) :
    q ∈ frontierPaths conn segs p ↔ Chain conn p segs q := by
  induction segs generalizing p with
  | nil =>
    simp only [frontierPaths, List.mem_singleton]
    constructor
    · rintro rfl; exact Chain.nil _
    · intro h; cases h; rfl
  | cons next rest ih =>
    simp only [frontierPaths, List.mem_flatMap]
    constructor
    · rintro ⟨d, hd, hq⟩
      exact Chain.cons hd ((ih d).mp hq)
    · intro h
      cases h with
      | cons hd hrest => exact ⟨_, hd, (ih _).mpr hrest⟩

/-! ## Concrete sessions used as test inputs -/

/-- A session whose every listing call raises. -/
def connAllFail : Conn :=
  { host := "h"
    listPath := fun _ _ => .error "err" }

/-- The spec's KeePass scenario: listing `C:` yields `Program Files`,
listing `C:\Program Files` yields `KeePass2` and `Other`, and every other
listing (including the IPC namespace) fails. -/
def connKeePass : Conn :=
  { host := "host1"
    listPath := fun share p =>
      if share = "C$" && p = "/*" then
        .ok [⟨"Program Files", "Program Files"⟩]
      else if share = "C$" && p = "/Program Files/*" then
        .ok [⟨"KeePass2", "KeePass2"⟩, ⟨"Other", "Other"⟩]
      else
        .error "STATUS_OBJECT_NAME_NOT_FOUND" }

/-- A catalog of one product, the spec's KeePass scenario. -/
def catalogKeePass : List (String × Product) :=
  [("KeePass", { paths := ["C:\\\\Program Files\\\\KeePass*"], pipes := [] })]

/-- A session where listing `C:` yields two children `Bad` and `Good`,
listing `Bad` is denied, and `Good` contains `Target`. -/
def connSibling : Conn :=
  { host := "h2"
    listPath := fun share p =>
      if share = "C$" && p = "/*" then
        .ok [⟨"Bad", "Bad"⟩, ⟨"Good", "Good"⟩]
      else if share = "C$" && p = "/Bad/*" then
        .error "STATUS_ACCESS_DENIED"
      else if share = "C$" && p = "/Good/*" then
        .ok [⟨"Target", "Target"⟩]
      else
        .error "STATUS_OBJECT_NAME_NOT_FOUND" }

/-! ## C1 -/

/-- C1: `_recursive_match` returns a truthy value iff the wildcard
pattern matches at least one existing concrete path reachable from the
file-share root (a `Chain` of listed, glob-matched children); and in the
spec's scenario — one product `KeePass` with pattern
`C:\Program Files\KeePass*`, the listing of `C:\Program Files` returning
`KeePass2` and `Other` — the product is reported as installed. -/
theorem resolver_true_iff_reachable_path :
    (∀ (conn : Conn) (segs : List String) (p : String),
      recursive_match conn segs p = true ↔ ∃ r, Chain conn p segs r) ∧
    detect_password_managers connKeePass catalogKeePass =
      [LogEvent.info "Checking for known password manager file paths on host1...",
       LogEvent.highlight "Password manager installed: KeePass"] :=
  ⟨recursive_match_iff_chain, by decide⟩

/-! ## C2 -/

/-- C2: a failed directory listing is confined to its branch: the
recursive call on the failing frontier entry returns `false` (it raises
nothing and contributes no children), and any sibling matched directory
whose recursion succeeds still makes the parent call — and hence the
whole resolution — succeed. -/
theorem listing_failure_confined_to_branch (conn : Conn) (d e : String)
    (hfail : conn.listPath "C$" (listArg d) = .error e) :
    (∀ (next' : String) (rest' : List String),
      recursive_match conn (next' :: rest') d = false) ∧
    ∀ (p next : String) (rest : List String) (d' : String),
      d' ∈ matchedDirs conn p next → recursive_match conn rest d' = true →
      recursive_match conn (next :: rest) p = true := by
  constructor
  · intro next' rest'
    simp [recursive_match, hfail]
  · intro p next rest d' hd' hrec
    rw [recursive_match_cons]
    exact List.any_eq_true.mpr ⟨d', hd', hrec⟩

/-- C2 witness: on `connSibling`, listing `C:/Bad` is denied, yet the
sibling `C:/Good` (which contains `Target`) still resolves the pattern
`C:\*\Target` at the parent. -/
theorem listing_failure_confined_to_branch_witness :
    (∀ (next' : String) (rest' : List String),
      recursive_match connSibling (next' :: rest') "C:/Bad" = false) ∧
    ∀ (p next : String) (rest : List String) (d' : String),
      d' ∈ matchedDirs connSibling p next → recursive_match connSibling rest d' = true →
      recursive_match connSibling (next :: rest) p = true :=
  listing_failure_confined_to_branch connSibling "C:/Bad" "STATUS_ACCESS_DENIED" rfl

/-- One unfolding step of the fuel-indexed resolver, in `matchedDirs`
form. -/
theorem recursive_match_fuel_cons (conn : Conn) (f : Nat) (next : String)
    (rest : List String) (p : String) :
    recursive_match_fuel conn (f + 1) (next :: rest) p =
      (matchedDirs conn p next).any fun d => recursive_match_fuel conn f rest d := by
  cases h : conn.listPath "C$" (listArg p) <;>
    simp [recursive_match_fuel, matchedDirs, h]

/-! ## C9 -/

/-- C9: path resolution terminates with recursion depth equal to the
number of remaining pattern segments: a fuel budget of `segs.length`
(one unit per consumed segment) never runs out, and once all segments are
consumed the call returns `true` (each surviving frontier path makes the
final frontier non-empty). -/
theorem resolver_depth_is_segment_count :
    (∀ (conn : Conn) (fuel : Nat) (segs : List String) (p : String),
      segs.length ≤ fuel →
      recursive_match_fuel conn fuel segs p = recursive_match conn segs p) ∧
    ∀ (conn : Conn) (p : String), recursive_match conn [] p = true := by
  constructor
  · intro conn fuel segs
    induction segs generalizing fuel with
    | nil => intro p _; cases fuel <;> rfl
    | cons next rest ih =>
      intro p h
      cases fuel with
      | zero => exact absurd h (by simp)
      | succ f =>
        rw [recursive_match_fuel_cons, recursive_match_cons]
        congr 1
        funext d
        exact ih f d (Nat.le_of_succ_le_succ h)
  · exact fun conn p => rfl

/-- C9 witness: on the KeePass session the two-segment pattern is
resolved with a fuel budget of exactly two. -/
theorem resolver_depth_is_segment_count_witness :
    recursive_match_fuel connKeePass 2 ["Program Files", "KeePass*"] "C:" =
      recursive_match connKeePass ["Program Files", "KeePass*"] "C:" :=
  resolver_depth_is_segment_count.1 connKeePass 2 ["Program Files", "KeePass*"] "C:"
    (by decide)

/-! ## C10 -/

/-- C10 (implicit edge case): a catalog path whose split on `\\` yields
only the root segment makes `_recursive_match` hit its base case at once:
it returns a truthy value, issues no listing request (`recTrace` is
empty), and `_detect_password_managers` reports the product as installed
without any existence check against the remote filesystem. -/
theorem root_only_pattern_reports_installed (conn : Conn) (name path base : String)
    (rest : List String) (hsplit : pySplit path "\\\\" = [base]) :
    recursive_match conn [] base = true ∧
    recTrace conn [] base = [] ∧
    detect_product_paths conn name (path :: rest) =
      [LogEvent.highlight ("Password manager installed: " ++ name)] := by
  refine ⟨rfl, rfl, ?_⟩
  simp [detect_product_paths, hsplit, recursive_match_nil]

/-- C10 witness: the root-only path `C:` reports the product installed
even on a session where every listing call fails. -/
theorem root_only_pattern_reports_installed_witness :
    recursive_match connAllFail [] "C:" = true ∧
    recTrace connAllFail [] "C:" = [] ∧
    detect_product_paths connAllFail "RootOnly" ["C:"] =
      [LogEvent.highlight ("Password manager installed: " ++ "RootOnly")] :=
  root_only_pattern_reports_installed connAllFail "RootOnly" "C:" "C:" [] (by decide)

/-! ## Lemmas about the pipe scanner -/

/-- Appending to a common prefix is injective on strings. -/
theorem string_append_cancel_left {s a b : String} (h : s ++ a = s ++ b) : a = b := by
  have hd := congrArg String.data h
  simp only [String.data_append] at hd
  exact congrArg String.mk (List.append_cancel_left hd)

theorem countEvent_nil (e : LogEvent) : countEvent e [] = 0 := rfl

theorem countEvent_append (e : LogEvent) (l₁ l₂ : List LogEvent) :
    countEvent e (l₁ ++ l₂) = countEvent e l₁ + countEvent e l₂ := by
  unfold countEvent
  rw [List.countP_append]

theorem countEvent_cons (e x : LogEvent) (l : List LogEvent) :
    countEvent e (x :: l) = countEvent e l + if x = e then 1 else 0 := by
  unfold countEvent
  rw [List.countP_cons]
  by_cases h : x = e <;> simp [h]

theorem countEvent_pos_iff_mem (e : LogEvent) (l : List LogEvent) :
    0 < countEvent e l ↔ e ∈ l := by
  unfold countEvent
  rw [List.countP_pos_iff]
  constructor
  · rintro ⟨a, ha, h⟩
    simp only [decide_eq_true_eq] at h
    rwa [h] at ha
  · intro h
    exact ⟨e, h, by simp⟩

/-- The inner `for pipe ... break` loop's per-entry test for one product:
some configured identifier is a case-insensitive substring of the
endpoint's long name. -/
def entryMatches (product : Product) (f : Entry) : Bool :=
  product.pipes.any fun pipe => pyInStr (pyLower pipe) (pyLower f.longname)

/-- The events one listed IPC entry produces: one `RUNNING` highlight per
catalog product whose pipe test passes for that entry. -/
def perEntryEvents (pms : List (String × Product)) (f : Entry) : List LogEvent :=
  pms.filterMap fun np =>
    if np.2.pipes.any fun pipe => pyInStr (pyLower pipe) (pyLower f.longname) then
      some (LogEvent.highlight ("Password manager RUNNING: " ++ np.1))
    else none

/-- When the IPC listing succeeds, the scanner's output is the info line
followed by the per-entry events of every listed entry, in order. -/
theorem detect_running_processes_ok (conn : Conn) (pms : List (String × Product))
    (entries : List Entry) (hok : conn.listPath "IPC$" "\\*" = .ok entries) :
    detect_running_processes conn pms =
      LogEvent.info ("Detecting running processes on " ++ conn.host ++
          " by enumerating pipes...") ::
        entries.flatMap fun f => perEntryEvents pms f := by
  simp [detect_running_processes, hok, perEntryEvents]

theorem perEntryEvents_append (l₁ l₂ : List (String × Product)) (f : Entry) :
    perEntryEvents (l₁ ++ l₂) f = perEntryEvents l₁ f ++ perEntryEvents l₂ f := by
  simp [perEntryEvents, List.filterMap_append]

theorem perEntryEvents_cons (np : String × Product) (l : List (String × Product)) (f : Entry) :
    perEntryEvents (np :: l) f =
      (if entryMatches np.2 f then
        [LogEvent.highlight ("Password manager RUNNING: " ++ np.1)] else []) ++
        perEntryEvents l f := by
  simp only [perEntryEvents, List.filterMap_cons, entryMatches]
  by_cases h : (np.2.pipes.any fun pipe => pyInStr (pyLower pipe) (pyLower f.longname)) = true <;>
    simp [h]

/-- Products whose key differs from `name` contribute no `RUNNING: name`
highlight for any entry. -/
theorem countEvent_perEntry_ne (f : Entry) (name : String) (l : List (String × Product))
    (h : ∀ np ∈ l, np.1 ≠ name) :
    countEvent (LogEvent.highlight ("Password manager RUNNING: " ++ name))
      (perEntryEvents l f) = 0 := by
  induction l with
  | nil => rfl
  | cons np l' ih =>
    rw [perEntryEvents_cons, countEvent_append,
      ih fun x hx => h x (List.mem_cons_of_mem _ hx)]
    have hne : ¬ (LogEvent.highlight ("Password manager RUNNING: " ++ np.1) =
        LogEvent.highlight ("Password manager RUNNING: " ++ name)) := fun hc =>
      h np (List.mem_cons_self np l')
        (string_append_cancel_left (LogEvent.highlight.inj hc))
    by_cases hm : entryMatches np.2 f = true <;>
      simp [hm, countEvent_cons, countEvent_nil, hne]

/-- For a catalog in which `name` keys exactly one product, one listed
entry contributes exactly one `RUNNING: name` highlight if its pipe test
passes for that product and none otherwise. -/
theorem countEvent_perEntry (f : Entry) (name : String) (product : Product)
    (l₁ l₂ : List (String × Product)) (huniq : ∀ np ∈ l₁ ++ l₂, np.1 ≠ name) :
    countEvent (LogEvent.highlight ("Password manager RUNNING: " ++ name))
        (perEntryEvents (l₁ ++ (name, product) :: l₂) f) =
      if entryMatches product f then 1 else 0 := by
  have h₁ : ∀ np ∈ l₁, np.1 ≠ name := fun np h => huniq np (List.mem_append_left _ h)
  have h₂ : ∀ np ∈ l₂, np.1 ≠ name := fun np h => huniq np (List.mem_append_right _ h)
  rw [perEntryEvents_append, countEvent_append, countEvent_perEntry_ne f name l₁ h₁,
    perEntryEvents_cons, countEvent_append, countEvent_perEntry_ne f name l₂ h₂]
  by_cases hm : entryMatches product f = true <;>
    simp [hm, countEvent_cons, countEvent_nil]

/-- The number of `RUNNING: name` highlights a successful scan emits is
the number of listed IPC entries whose name contains one of the product's
identifiers (case-insensitively). -/
theorem countEvent_detect_running (conn : Conn) (l₁ l₂ : List (String × Product))
    (name : String) (product : Product) (entries : List Entry)
    (hok : conn.listPath "IPC$" "\\*" = .ok entries)
    (huniq : ∀ np ∈ l₁ ++ l₂, np.1 ≠ name) :
    countEvent (LogEvent.highlight ("Password manager RUNNING: " ++ name))
        (detect_running_processes conn (l₁ ++ (name, product) :: l₂)) =
      entries.countP fun f => entryMatches product f := by
  rw [detect_running_processes_ok conn _ entries hok, countEvent_cons]
  simp only [reduceCtorEq, if_false, add_zero]
  clear hok
  induction entries with
  | nil => rfl
  | cons f fs ih =>
    rw [List.flatMap_cons, countEvent_append, ih, List.countP_cons,
      countEvent_perEntry f name product l₁ l₂ huniq]
    omega

/-! ## C3 -/

/-- A session whose IPC listing returns two endpoint names that both
contain `lastpass_`, and whose every other listing fails. -/
def connTwoPipes : Conn :=
  { host := "h3"
    listPath := fun share p =>
      if share = "IPC$" && p = "\\*" then
        .ok [⟨"lastpass_1", "lastpass_1"⟩, ⟨"lastpass_2", "lastpass_2"⟩]
      else
        .error "STATUS_OBJECT_NAME_NOT_FOUND" }

/-- A catalog of one product, `LastPass`, with the single pipe identifier
`LASTPASS_`. -/
def catalogLastPass : List (String × Product) :=
  [("LastPass", { paths := [], pipes := ["LASTPASS_"] })]

/-- C3 counterexample: with two listed endpoint names both containing the
identifier, `LastPass` is reported as running twice in one run — the
`break` in `_detect_running_processes` only leaves the innermost loop over
the product's identifiers, not the loop over listed entries. -/
theorem running_reported_once_counterexample :
    countEvent (LogEvent.highlight ("Password manager RUNNING: " ++ "LastPass"))
      (detect_running_processes connTwoPipes catalogLastPass) = 2 := by decide

/-- C3 (amended): per listed IPC entry each product is reported at most
once (the identifier loop breaks at its first satisfied identifier), so
over a whole run the number of `RUNNING` reports for a product equals the
number of listed endpoint names containing one of its identifiers — which
can exceed one. -/
theorem running_reports_count_matching_entries (conn : Conn)
    (l₁ l₂ : List (String × Product)) (name : String) (product : Product)
    (entries : List Entry)
    (hok : conn.listPath "IPC$" "\\*" = .ok entries)
    (huniq : ∀ np ∈ l₁ ++ l₂, np.1 ≠ name) :
    countEvent (LogEvent.highlight ("Password manager RUNNING: " ++ name))
        (detect_running_processes conn (l₁ ++ (name, product) :: l₂)) =
      entries.countP fun f => entryMatches product f :=
  countEvent_detect_running conn l₁ l₂ name product entries hok huniq

/-- C3 amended witness: on `connTwoPipes` the count of `RUNNING: LastPass`
reports equals the count of matching listed entries (both are two). -/
theorem running_reports_count_matching_entries_witness :
    countEvent (LogEvent.highlight ("Password manager RUNNING: " ++ "LastPass"))
        (detect_running_processes connTwoPipes catalogLastPass) =
      List.countP (fun f => entryMatches { paths := [], pipes := ["LASTPASS_"] } f)
        [⟨"lastpass_1", "lastpass_1"⟩, ⟨"lastpass_2", "lastpass_2"⟩] :=
  running_reports_count_matching_entries connTwoPipes [] []
    "LastPass" { paths := [], pipes := ["LASTPASS_"] }
    [⟨"lastpass_1", "lastpass_1"⟩, ⟨"lastpass_2", "lastpass_2"⟩] rfl (by simp)

/-! ## C6 -/

/-- A session whose IPC listing returns the single endpoint name
`lastpass_123`. -/
def connOnePipe : Conn :=
  { host := "h4"
    listPath := fun share p =>
      if share = "IPC$" && p = "\\*" then
        .ok [⟨"lastpass_123", "lastpass_123"⟩]
      else
        .error "STATUS_OBJECT_NAME_NOT_FOUND" }

/-- C6: a product (keyed once in the catalog) is reported as running iff
at least one of its configured identifiers is a case-insensitive
substring of at least one listed IPC endpoint name. -/
theorem running_iff_ci_substring (conn : Conn)
    (l₁ l₂ : List (String × Product)) (name : String) (product : Product)
    (entries : List Entry)
    (hok : conn.listPath "IPC$" "\\*" = .ok entries)
    (huniq : ∀ np ∈ l₁ ++ l₂, np.1 ≠ name) :
    LogEvent.highlight ("Password manager RUNNING: " ++ name) ∈
        detect_running_processes conn (l₁ ++ (name, product) :: l₂) ↔
      ∃ f ∈ entries, ∃ pipe ∈ product.pipes,
        pyInStr (pyLower pipe) (pyLower f.longname) = true := by
  rw [← countEvent_pos_iff_mem,
    countEvent_detect_running conn l₁ l₂ name product entries hok huniq,
    List.countP_pos_iff]
  constructor
  · rintro ⟨f, hf, hm⟩
    obtain ⟨pipe, hpipe, h⟩ := List.any_eq_true.mp hm
    exact ⟨f, hf, pipe, hpipe, h⟩
  · rintro ⟨f, hf, pipe, hpipe, h⟩
    exact ⟨f, hf, List.any_eq_true.mpr ⟨pipe, hpipe, h⟩⟩

/-- C6 witness: the identifier `LASTPASS_` matches the listed endpoint
name `lastpass_123` case-insensitively, and on `connOnePipe` the product
is indeed reported as running. -/
theorem running_iff_ci_substring_witness :
    (LogEvent.highlight ("Password manager RUNNING: " ++ "LastPass") ∈
        detect_running_processes connOnePipe catalogLastPass ↔
      ∃ f ∈ [(⟨"lastpass_123", "lastpass_123"⟩ : Entry)],
        ∃ pipe ∈ ["LASTPASS_"], pyInStr (pyLower pipe) (pyLower f.longname) = true) ∧
    LogEvent.highlight ("Password manager RUNNING: " ++ "LastPass") ∈
      detect_running_processes connOnePipe catalogLastPass :=
  ⟨running_iff_ci_substring connOnePipe [] [] "LastPass"
      { paths := [], pipes := ["LASTPASS_"] }
      [⟨"lastpass_123", "lastpass_123"⟩] rfl (by simp),
    by decide⟩

/-! ## C4 -/

/-- Whether a log event is a `highlight` line (the level every detection
report and the "none detected" notice use). -/
def isHighlight : LogEvent → Bool
  | .highlight _ => true
  | _ => false

/-- C4 (code bug): on a run where no product yields any signal (every
listing call fails), `on_login` emits only its info lines and the pipe
scanner's failure — no "none detected" notice and no per-product line.
`dump_results`, which would emit exactly the single notice for an empty
result set, is never called by `on_login`. -/
theorem no_detection_emits_no_notice :
    on_login connAllFail =
      [LogEvent.info ("Analyzing target: " ++ "h"),
       LogEvent.info ("Detecting running processes on " ++ "h" ++ " by enumerating pipes..."),
       LogEvent.fail "err",
       LogEvent.info ("Checking for known password manager file paths on " ++ "h" ++ "...")] ∧
    (∀ e ∈ on_login connAllFail, isHighlight e = false) ∧
    dump_results [] = [LogEvent.highlight "No password managers detected."] :=
  ⟨by decide, by decide, rfl⟩

/-! ## C5 -/

theorem matchedDirs_congr (conn conn' : Conn)
    (h : ∀ arg, conn'.listPath "C$" arg = conn.listPath "C$" arg) (p next : String) :
    matchedDirs conn' p next = matchedDirs conn p next := by
  unfold matchedDirs
  rw [h]

/-- The path resolver only consults `C$` listings: two sessions that
agree on them resolve identically. -/
theorem recursive_match_congr (conn conn' : Conn)
    (h : ∀ arg, conn'.listPath "C$" arg = conn.listPath "C$" arg) :
    ∀ (segs : List String) (p : String),
      recursive_match conn' segs p = recursive_match conn segs p := by
  intro segs
  induction segs with
  | nil => intro p; rfl
  | cons next rest ih =>
    intro p
    rw [recursive_match_cons, recursive_match_cons, matchedDirs_congr conn conn' h]
    congr 1
    funext d
    exact ih d

theorem detect_product_paths_congr (conn conn' : Conn)
    (h : ∀ arg, conn'.listPath "C$" arg = conn.listPath "C$" arg) (name : String) :
    ∀ paths : List String,
      detect_product_paths conn' name paths = detect_product_paths conn name paths := by
  intro paths
  induction paths with
  | nil => rfl
  | cons path rest ih =>
    cases hsp : pySplit path "\\\\" with
    | nil =>
      simp only [detect_product_paths, hsp]
      exact ih
    | cons base remaining =>
      simp only [detect_product_paths, hsp]
      rw [recursive_match_congr conn conn' h remaining base]
      by_cases hr : recursive_match conn remaining base = true
      · rw [if_pos hr, if_pos hr]
      · rw [if_neg hr, if_neg hr]
        exact ih

theorem detect_password_managers_congr (conn conn' : Conn)
    (hhost : conn'.host = conn.host)
    (h : ∀ arg, conn'.listPath "C$" arg = conn.listPath "C$" arg) :
    ∀ pms : List (String × Product),
      detect_password_managers conn' pms = detect_password_managers conn pms := by
  intro pms
  unfold detect_password_managers
  rw [hhost]
  congr 1
  induction pms with
  | nil => rfl
  | cons np rest ih =>
    rw [List.flatMap_cons, List.flatMap_cons, ih,
      detect_product_paths_congr conn conn' h np.1 np.2.paths]

/-- C5: when the one IPC listing call fails, the run still completes:
the scanner contributes only its info line and the failure (surfaced via
`context.log.fail`), with zero running reports, and path detection runs
unaffected — its output depends only on the host label and the `C$`
listings. -/
theorem ipc_failure_nonfatal (conn : Conn) (e : String)
    (hfail : conn.listPath "IPC$" "\\*" = .error e) :
    (on_login conn =
      LogEvent.info ("Analyzing target: " ++ get_target conn) ::
        LogEvent.info ("Detecting running processes on " ++ conn.host ++
          " by enumerating pipes...") ::
        LogEvent.fail e ::
        detect_password_managers conn password_managers) ∧
    ∀ conn' : Conn, conn'.host = conn.host →
      (∀ arg, conn'.listPath "C$" arg = conn.listPath "C$" arg) →
      detect_password_managers conn' password_managers =
        detect_password_managers conn password_managers := by
  constructor
  · simp [on_login, detect_running_processes, hfail]
  · intro conn' hhost h
    exact detect_password_managers_congr conn conn' hhost h password_managers

/-- C5 witness: on the all-failing session the IPC failure is logged and
the run still reaches (and finishes) path detection. -/
theorem ipc_failure_nonfatal_witness :
    (on_login connAllFail =
      LogEvent.info ("Analyzing target: " ++ get_target connAllFail) ::
        LogEvent.info ("Detecting running processes on " ++ connAllFail.host ++
          " by enumerating pipes...") ::
        LogEvent.fail "err" ::
        detect_password_managers connAllFail password_managers) ∧
    ∀ conn' : Conn, conn'.host = connAllFail.host →
      (∀ arg, conn'.listPath "C$" arg = connAllFail.listPath "C$" arg) →
      detect_password_managers conn' password_managers =
        detect_password_managers connAllFail password_managers :=
  ipc_failure_nonfatal connAllFail "err" rfl

/-! ## C7 -/

/-- The `for matched_dir` loop only visits elements of the matched list. -/
theorem visitedDirs_subset (conn : Conn) (rest : List String) :
    ∀ (l : List String) (d : String), d ∈ visitedDirs conn rest l → d ∈ l := by
  intro l
  induction l with
  | nil => intro d hd; simp [visitedDirs] at hd
  | cons x xs ih =>
    intro d hd
    simp only [visitedDirs] at hd
    split at hd
    · simp only [List.mem_singleton] at hd
      simp [hd]
    · rcases List.mem_cons.mp hd with h | h
      · simp [h]
      · exact List.mem_cons_of_mem _ (ih d h)

theorem matchedDirs_of_ok (conn : Conn) (p next : String) (contents : List Entry)
    (hok : conn.listPath "C$" (listArg p) = .ok contents) :
    matchedDirs conn p next =
      (contents.filter fun it => fnmatch it.shortname next).map
        fun it => osJoin p it.shortname := by
  simp [matchedDirs, hok]

/-- Every listing request the resolver issues is the listing of a path on
the frontier of some proper prefix of the remaining segments. -/
theorem recTrace_args_are_frontier_listings (conn : Conn) :
    ∀ (segs : List String) (p : String), ∀ arg ∈ recTrace conn segs p,
      ∃ pre suf q, segs = pre ++ suf ∧ suf ≠ [] ∧ Chain conn p pre q ∧
        arg = listArg q := by
  intro segs
  induction segs with
  | nil => intro p arg h; simp [recTrace] at h
  | cons next rest ih =>
    intro p arg h
    cases hl : conn.listPath "C$" (listArg p) with
    | error e =>
      simp only [recTrace, hl, List.mem_singleton] at h
      exact ⟨[], next :: rest, p, rfl, by simp, Chain.nil p, h⟩
    | ok contents =>
      simp only [recTrace, hl] at h
      rcases List.mem_cons.mp h with h | h
      · exact ⟨[], next :: rest, p, rfl, by simp, Chain.nil p, h⟩
      · rw [List.mem_flatMap] at h
        obtain ⟨d, hd, harg⟩ := h
        have hdm : d ∈ matchedDirs conn p next := by
          rw [matchedDirs_of_ok conn p next contents hl]
          exact visitedDirs_subset conn rest _ d hd
        obtain ⟨pre', suf', q, hrest, hsuf, hchain, harg'⟩ := ih d arg harg
        exact ⟨next :: pre', suf', q, by rw [hrest]; rfl, hsuf,
          Chain.cons hdm hchain, harg'⟩

/-- C7: if the glob segment at some position matches zero children on
every frontier path of that position, resolution returns `false`, and
every listing request issued belongs to a frontier path of that segment's
prefix (no listing is issued beyond the segment's parent directories). -/
theorem empty_glob_level_stops_resolution (conn : Conn) (p next₀ : String)
    (pre₀ suf₀ : List String)
    (hempty : ∀ q ∈ frontierPaths conn pre₀ p, matchedDirs conn q next₀ = []) :
    recursive_match conn (pre₀ ++ next₀ :: suf₀) p = false ∧
    ∀ arg ∈ recTrace conn (pre₀ ++ next₀ :: suf₀) p,
      ∃ pre q, pre <+: pre₀ ∧ q ∈ frontierPaths conn pre p ∧ arg = listArg q := by
  constructor
  · apply Bool.eq_false_iff.mpr
    intro htrue
    obtain ⟨r, hr⟩ := (recursive_match_iff_chain conn _ p).mp htrue
    rw [chain_append_iff] at hr
    obtain ⟨m, hm, hr⟩ := hr
    cases hr with
    | cons hq _ =>
      have h0 := hempty m ((mem_frontierPaths_iff_chain conn pre₀ p m).mpr hm)
      rw [h0] at hq
      simp at hq
  · intro arg harg
    obtain ⟨pre, suf, q, hsegs, hsuf, hchain, harg'⟩ :=
      recTrace_args_are_frontier_listings conn _ p arg harg
    by_cases hlen : pre.length ≤ pre₀.length
    · refine ⟨pre, q, ?_, (mem_frontierPaths_iff_chain conn pre p q).mpr hchain, harg'⟩
      exact List.prefix_of_prefix_length_le ⟨suf, hsegs.symm⟩ ⟨next₀ :: suf₀, rfl⟩ hlen
    · exfalso
      push_neg at hlen
      have h1 : pre₀ ++ [next₀] <+: pre := by
        refine List.prefix_of_prefix_length_le ⟨suf₀, by simp⟩ ⟨suf, hsegs.symm⟩ ?_
        simp only [List.length_append]
        simpa using hlen
      obtain ⟨tail, htail⟩ := h1
      rw [← htail, chain_append_iff] at hchain
      obtain ⟨m₂, hm₂, _⟩ := hchain
      rw [chain_append_iff] at hm₂
      obtain ⟨m₁, hm₁, hstep⟩ := hm₂
      cases hstep with
      | cons hq hnil =>
        have h0 := hempty m₁ ((mem_frontierPaths_iff_chain conn pre₀ p m₁).mpr hm₁)
        rw [h0] at hq
        simp at hq

/-- C7 witness: on the KeePass session, the segment `Enpass` after
`Program Files` matches no child; the three-segment pattern resolves to
`false` and only `C:` and `C:/Program Files` are ever listed. -/
theorem empty_glob_level_stops_resolution_witness :
    recursive_match connKeePass (["Program Files"] ++ "Enpass" :: ["x"]) "C:" = false ∧
    ∀ arg ∈ recTrace connKeePass (["Program Files"] ++ "Enpass" :: ["x"]) "C:",
      ∃ pre q, pre <+: ["Program Files"] ∧ q ∈ frontierPaths connKeePass pre "C:" ∧
        arg = listArg q :=
  empty_glob_level_stops_resolution connKeePass "C:" "Enpass" ["Program Files"] ["x"]
    (by decide)

/-! ## C8 -/

/-- A path whose resolution fails is skipped: detection moves on to the
product's next pattern. -/
theorem detect_product_paths_skip (conn : Conn) (name : String) (q : String)
    (rest : List String) (hq : resolves conn q = false) :
    detect_product_paths conn name (q :: rest) = detect_product_paths conn name rest := by
  unfold resolves at hq
  cases hsp : pySplit q "\\\\" with
  | nil => simp [detect_product_paths, hsp]
  | cons base remaining =>
    simp only [hsp] at hq
    simp [detect_product_paths, hsp, hq]

/-- A path whose resolution succeeds reports the product at once; the
remaining patterns are discarded unexamined (`break`). -/
theorem detect_product_paths_hit (conn : Conn) (name : String) (path : String)
    (rest : List String) (hres : resolves conn path = true) :
    detect_product_paths conn name (path :: rest) =
      [LogEvent.highlight ("Password manager installed: " ++ name)] := by
  unfold resolves at hres
  cases hsp : pySplit path "\\\\" with
  | nil =>
    simp only [hsp] at hres
    exact absurd hres (by simp)
  | cons base remaining =>
    simp only [hsp] at hres
    simp [detect_product_paths, hsp, hres]

/-- C8: for one product the patterns are tried in their configured order
and iteration stops at the first that resolves: at most one installed
report is ever emitted, and when the patterns before `path` all fail and
`path` resolves, the output is exactly one report and is unchanged by
whatever patterns follow `path`. -/
theorem first_matching_pattern_short_circuits (conn : Conn) (name : String) :
    (∀ paths : List String, (detect_product_paths conn name paths).length ≤ 1) ∧
    ∀ (l₁ : List String) (path : String) (l₂ l₂' : List String),
      (∀ q ∈ l₁, resolves conn q = false) → resolves conn path = true →
      detect_product_paths conn name (l₁ ++ path :: l₂) =
          [LogEvent.highlight ("Password manager installed: " ++ name)] ∧
        detect_product_paths conn name (l₁ ++ path :: l₂) =
          detect_product_paths conn name (l₁ ++ path :: l₂') := by
  constructor
  · intro paths
    induction paths with
    | nil => simp [detect_product_paths]
    | cons path rest ih =>
      by_cases hres : resolves conn path = true
      · rw [detect_product_paths_hit conn name path rest hres]
        simp
      · rw [detect_product_paths_skip conn name path rest (Bool.eq_false_iff.mpr hres)]
        exact ih
  · intro l₁ path l₂ l₂' hprev hres
    induction l₁ with
    | nil =>
      rw [List.nil_append, List.nil_append,
        detect_product_paths_hit conn name path l₂ hres,
        detect_product_paths_hit conn name path l₂' hres]
      exact ⟨rfl, rfl⟩
    | cons q l₁' ih =>
      have hq : resolves conn q = false := hprev q (List.mem_cons_self q l₁')
      have ih' := ih fun x hx => hprev x (List.mem_cons_of_mem _ hx)
      rw [List.cons_append, List.cons_append,
        detect_product_paths_skip conn name q (l₁' ++ path :: l₂) hq,
        detect_product_paths_skip conn name q (l₁' ++ path :: l₂') hq]
      exact ih'

/-- C8 witness: on the KeePass session, with a failing pattern first, the
KeePass pattern second and a further pattern behind it, exactly one
installed report is emitted and the trailing pattern is irrelevant. -/
theorem first_matching_pattern_short_circuits_witness :
    detect_product_paths connKeePass "KeePass"
        (["C:\\\\Nope"] ++ "C:\\\\Program Files\\\\KeePass*" :: ["C:\\\\Other"]) =
          [LogEvent.highlight ("Password manager installed: " ++ "KeePass")] ∧
      detect_product_paths connKeePass "KeePass"
          (["C:\\\\Nope"] ++ "C:\\\\Program Files\\\\KeePass*" :: ["C:\\\\Other"]) =
        detect_product_paths connKeePass "KeePass"
          (["C:\\\\Nope"] ++ "C:\\\\Program Files\\\\KeePass*" :: []) :=
  (first_matching_pattern_short_circuits connKeePass "KeePass").2
    ["C:\\\\Nope"] "C:\\\\Program Files\\\\KeePass*" ["C:\\\\Other"] []
    (by decide) (by decide)
